import Mathlib

/-!
Verification development for the `rpc` package (a Go JSON-RPC server derived
from gorilla/rpc): a shallow embedding of `service.go` (the service registry
`serviceMap`, the `Server` with its codec table and middleware lists, and the
`ServeHTTP` dispatch pipeline) together with theorems settling the frozen
claims about it.

Modelling conventions:
* Go strings are Lean `String`; the library string helpers used by the code
  (`strings.Split`, `strings.ToLower`, `strings.Index` for the `;` cut) are
  re-implemented structurally over `String.data` so that the kernel can
  evaluate them (`strSplitDot`, `lowerStr`, `stripParams`).
* Go maps are association lists `List (String × α)` with overwrite-insert
  (`aInsert`) and first-match lookup (`aLookup`); Go map keys are unique, which
  the overwrite-insert preserves.
* Go slices are Lean lists by value (`append(xs, v)` becomes `xs ++ [v]`);
  backing-array aliasing of Go slices is not modelled.
* `reflect.Type` values are the inductive `GoType`; reflection method/func
  signatures carry the data the code actually inspects (`PkgPath`, `NumIn`,
  `In i`, `NumOut`, `Out i`).
* Go errors are their message strings; `error` results become `Option String`
  (mutation style, state returned alongside) or `Except String` (value style).
-/

set_option autoImplicit false

namespace Rpc

/-! ## String primitives (kernel-evaluable stand-ins for the Go `strings` API) -/

/-- Split a character list at every occurrence of `c`
(the semantics of Go `strings.Split` for a one-character separator). -/
def splitOnChar (c : Char) : List Char → List (List Char)
  | [] => [[]]
  | x :: xs =>
    match splitOnChar c xs with
    | [] => [[x]]
    | h :: t => if x = c then [] :: h :: t else (x :: h) :: t

/-- `strings.Split(s, ".")` as used by `serviceMap.get`. -/
def strSplitDot (s : String) : List String :=
  (splitOnChar '.' s.data).map String.mk

/-- `strings.ToLower` (sufficient for ASCII content-type keys). -/
def lowerStr (s : String) : String :=
  String.mk (s.data.map Char.toLower)

/-- Keep the prefix of the list strictly before the first occurrence of `c`;
the whole list when `c` does not occur. -/
def takeBeforeChar (c : Char) : List Char → List Char
  | [] => []
  | x :: xs => if x = c then [] else x :: takeBeforeChar c xs

/-- The content-type trimming of `ServeHTTP`: `idx := strings.Index(ct, ";");
if idx != -1 { ct = ct[:idx] }`. -/
def stripParams (s : String) : String :=
  String.mk (takeBeforeChar ';' s.data)

/-! ## Association lists: the model of Go maps -/

/-- Go map read `m[k]` (with `nil`-miss reported as `none`). -/
def aLookup {α : Type} : List (String × α) → String → Option α
  | [], _ => none
  | (k, v) :: rest, q => if k = q then some v else aLookup rest q

/-- Go map write `m[k] = v`: overwrite in place when the key is present,
append otherwise. -/
def aInsert {α : Type} : List (String × α) → String → α → List (String × α)
  | [], k, v => [(k, v)]
  | (k', v') :: rest, k, v =>
    if k' = k then (k, v) :: rest else (k', v') :: aInsert rest k v

/-! ## Go reflection model -/

/-- A Go `reflect.Type` as far as the code inspects it: either a pointer type
or an (atomic) named type, `error` and `http.Request` among them. -/
inductive GoType where
  | ptr (elem : GoType)
  | base (name : String)
deriving DecidableEq, Repr

/-- The interface type `error` (`reflect.TypeOf((*error)(nil)).Elem()`). -/
def errType : GoType := .base "error"

/-- The struct type `http.Request`
(`reflect.TypeOf((*http.Request)(nil)).Elem()`). -/
def httpRequestType : GoType := .base "net/http.Request"

/-- `t.Kind() == reflect.Ptr`. -/
def GoType.isPtr : GoType → Bool
  | .ptr _ => true
  | .base _ => false

/-- `t.Elem()` (only ever applied to pointer types by the code; on a base type
we return it unchanged, a case the code never reaches). -/
def GoType.elemType : GoType → GoType
  | .ptr e => e
  | .base n => .base n

/-- A method of a receiver as delivered by `rValue.Type().Method(i)`:
name, `PkgPath` (empty iff exported), the `In` list (index 0 is the receiver)
and the `Out` list. -/
structure GoMethodSig where
  name : String
  pkgPath : String
  ins : List GoType
  outs : List GoType
deriving DecidableEq, Repr

/-- The chain of `continue`-guards of `serviceMap.add` (`service.go` lines
62–95): a method is kept iff it is exported, has exactly four ins
(receiver, `*ctxType`, pointer args, pointer reply) and exactly one out,
of type `error`. -/
def suitable (ctxType : GoType) (m : GoMethodSig) : Bool :=
  decide (m.pkgPath = "") &&
  decide (m.ins.length = 4) &&
  (match m.ins[1]? with
   | some t => t.isPtr && decide (t.elemType = ctxType)
   | none => false) &&
  (match m.ins[2]? with
   | some t => t.isPtr
   | none => false) &&
  (match m.ins[3]? with
   | some t => t.isPtr
   | none => false) &&
  decide (m.outs.length = 1) &&
  (match m.outs[0]? with
   | some t => decide (t = errType)
   | none => false)

/-- The receiver value passed to `serviceMap.add`: the name of its indirect
type (`reflect.Indirect(rValue).Type().Name()`) and its method set. -/
structure Receiver where
  typeName : String
  methods : List GoMethodSig
deriving DecidableEq, Repr

/-- The stored descriptor `serviceMethod` (`service.go` lines 16–21); the
back-pointer to the owning `service` is represented by the owning entry of the
registry association list rather than by a Go pointer. -/
structure ServiceMethod where
  methodName : String
  argsType : GoType
  replyType : GoType
deriving DecidableEq, Repr

/-- The `service` struct, generic in the method payload `α` so that the same
`get`/`Map` logic serves both the reflection registry (`α = ServiceMethod`)
and the behavioural dispatch registry; the receiver value `rValue` is carried
by the behavioural layer where it is used. -/
structure GService (α : Type) where
  name : String
  methods : List (String × α)
deriving Repr

/-- A registry state: the `services map[string]*service` field of
`serviceMap`, with `nil` represented by `[]`. -/
abbrev Registry (α : Type) : Type := List (String × GService α)

/-- The method-scanning loop of `serviceMap.add` (`service.go` lines 59–103):
fold over the receiver's methods, inserting every suitable one into the
accumulated method map under its name, with `argsType`/`replyType` the
pointees of ins 2 and 3. -/
def buildMethodsAux (ctxType : GoType) (acc : List (String × ServiceMethod)) :
    List GoMethodSig → List (String × ServiceMethod)
  | [] => acc
  | mm :: rest =>
    buildMethodsAux ctxType
      (if suitable ctxType mm then
        aInsert acc mm.name
          ⟨mm.name, (mm.ins.getD 2 (.base "")).elemType,
            (mm.ins.getD 3 (.base "")).elemType⟩
       else acc) rest

/-- The method map built by `serviceMap.add` for a receiver. -/
def buildMethods (ctxType : GoType) (ms : List GoMethodSig) :
    List (String × ServiceMethod) :=
  buildMethodsAux ctxType [] ms

/-- The service-name resolution of `serviceMap.add`: the explicit name, or the
receiver's type name when the explicit name is empty. -/
def resolvedName (rec : Receiver) (name : String) : String :=
  if name = "" then rec.typeName else name

/-- `serviceMap.add` (`service.go` lines 38–120). The Go method mutates the
receiver map and returns an error; here it returns the new registry paired
with the (optional) error message, the registry unchanged on every error
path. -/
def serviceAdd (m : Registry ServiceMethod) (rcvr : Option Receiver)
    (name : String) (ctxType : GoType) : Registry ServiceMethod × Option String :=
  match rcvr with
  | none => (m, some "rpc: nil rcvr is not allowed")
  | some rec =>
    let sname := resolvedName rec name
    if sname = "" then
      (m, some ("rpc: no service name for type \x22" ++ rec.typeName ++ "\x22"))
    else
      let methods := buildMethods ctxType rec.methods
      if methods.isEmpty then
        (m, some ("rpc: \x22" ++ sname ++ "\x22 has no exported methods of suitable type"))
      else if (aLookup m sname).isSome then
        (m, some ("rpc: service \x22" ++ sname ++ "\x22 already defined"))
      else
        (aInsert m sname ⟨sname, methods⟩, none)

/-- `serviceMap.get` (`service.go` lines 126–145): split the dotted name,
require exactly two parts, look up the service then the method. -/
def sGet {α : Type} (m : Registry α) (method : String) : Except String α :=
  match strSplitDot method with
  | [a, b] =>
    match aLookup m a with
    | none => .error ("rpc: can't find service \x22" ++ method ++ "\x22")
    | some svc =>
      match aLookup svc.methods b with
      | none => .error ("rpc: can't find method \x22" ++ method ++ "\x22")
      | some sm => .ok sm
  | _ => .error ("rpc: service/method request ill-formed: \x22" ++ method ++ "\x22")

/-- `serviceMap.Map` (`service.go` lines 150–162): for every registered
service an entry keyed by the stored `s.name`, carrying the list of its
method-map keys. -/
def sMap {α : Type} (m : Registry α) : List (String × List String) :=
  m.map (fun p => (p.2.name, p.2.methods.map Prod.fst))

/-! ## The `Server`: codecs, middleware, dispatch -/

/-- The reflection shape of a middleware candidate, as far as `validCtxFunc`
inspects it: whether it is a func at all, its `In` list and its `Out` list. -/
structure FuncSig where
  isFunc : Bool
  ins : List GoType
  outs : List GoType
deriving DecidableEq, Repr

/-- `validCtxFunc` (`service.go` lines 470–502): `none` means the candidate
is accepted, `some msg` is the returned error (the "ill-fromed" typo is the
source's). A `nil` candidate is the `none` argument. -/
def validCtxFunc (fn : Option FuncSig) (ctxType : GoType) : Option String :=
  match fn with
  | none => some "rpc: middleware is nil"
  | some f =>
    if ¬ f.isFunc then some "rpc: middleware is not func type"
    else if f.ins.length ≠ 2 then some "rpc: middleware ill-fromed"
    else if f.outs.length ≠ 1 then some "rpc: middleware ill-fromed"
    else if ¬ ((f.ins.getD 0 (.base "")).isPtr
        && decide ((f.ins.getD 0 (.base "")).elemType = httpRequestType)) then
      some "rpc: middleware ill-fromed"
    else if ¬ ((f.ins.getD 1 (.base "")).isPtr
        && decide ((f.ins.getD 1 (.base "")).elemType = ctxType)) then
      some "rpc: middleware ill-fromed"
    else if (f.outs.getD 0 (.base "")) ≠ errType then
      some "rpc: middleware ill-fromed"
    else none

/-- An inbound `*http.Request` as far as the dispatch pipeline reads it:
the HTTP verb, the header table (`Header.Get`, empty string when absent) and
the body (consumed only through the codec's behaviour functions). -/
structure HRequest where
  verb : String
  header : String → String
  body : String

/-- A registered middleware hook: the `reflect.Value` of the func, carrying
its reflection signature (checked at registration), a numeric identity (two
distinct registered funcs are distinct values) and its runtime behaviour —
the hook receives the request and the context pointer; mutating through the
pointer is modelled by returning the new context alongside the optional
error. -/
structure Hook (Ctx : Type) where
  hid : Nat
  sig : FuncSig
  run : HRequest → Ctx → Ctx × Option String

/-- A codec together with the behaviour of the per-request adapter it
produces (`Codec.NewRequest`): method-name extraction and argument decoding.
`readRequest` receives the freshly allocated zero-valued argument instance
and returns its decoded state plus the optional decode error. -/
structure Codec (Ctx A Rep : Type) where
  methodName : HRequest → Except String String
  readRequest : HRequest → A → A × Option String

/-- The behavioural payload of a resolved method: the zero values produced by
`reflect.New` on its argument and reply shapes, and the invocation
`method.Func.Call(rcvr, ctx, args, reply)` — context and reply mutation
modelled by returning their new states, plus the returned `error`. -/
structure MethodBeh (Ctx A Rep : Type) where
  argZero : A
  replyZero : Rep
  call : Ctx → A → Rep → Ctx × Rep × Option String

/-- The `Server` struct (`service.go` lines 280–286): codec table, service
registry, fixed context type (plus its zero value, which `reflect.New`
produces per request), and the two middleware slices. -/
structure Server (Ctx A Rep : Type) where
  codecs : List (String × Codec Ctx A Rep)
  services : Registry (MethodBeh Ctx A Rep)
  ctxType : GoType
  ctxZero : Ctx
  beforeFns : List (Hook Ctx)
  afterFns : List (Hook Ctx)

/-- `Server.RegisterBeforeFunc` (`service.go` lines 291–297): validate, then
`s.beforeFns = append(s.beforeFns, fn)`. -/
def registerBeforeFunc {Ctx A Rep : Type} (s : Server Ctx A Rep)
    (fn : Option (Hook Ctx)) : Server Ctx A Rep × Option String :=
  match validCtxFunc (fn.map Hook.sig) s.ctxType with
  | some e => (s, some e)
  | none =>
    match fn with
    | none => (s, none)
    | some f => ({s with beforeFns := s.beforeFns ++ [f]}, none)

/-- `Server.RegisterAfterFunc` (`service.go` lines 302–308): validate, then —
exactly as the source line 306 reads — `s.afterFns = append(s.beforeFns, fn)`:
the new after-list is the current *before*-list extended with `fn`. -/
def registerAfterFunc {Ctx A Rep : Type} (s : Server Ctx A Rep)
    (fn : Option (Hook Ctx)) : Server Ctx A Rep × Option String :=
  match validCtxFunc (fn.map Hook.sig) s.ctxType with
  | some e => (s, some e)
  | none =>
    match fn with
    | none => (s, none)
    | some f => ({s with afterFns := s.beforeFns ++ [f]}, none)

/-- `Server.RegisterCodec` (`service.go` lines 317–319):
`s.codecs[strings.ToLower(contentType)] = codec`. -/
def registerCodec {Ctx A Rep : Type} (s : Server Ctx A Rep)
    (codec : Codec Ctx A Rep) (contentType : String) : Server Ctx A Rep :=
  {s with codecs := aInsert s.codecs (lowerStr contentType) codec}

/-- The outcome of one dispatch, as observable on the `ResponseWriter`:
`plainError` is `WriteError` (405/415 paths), `codecError` is
`codecReq.WriteError` (the 400 paths), `success` is `WriteResponse` with the
`x-content-type-options: nosniff` header flag. -/
inductive DResponse (Rep : Type) where
  | plainError (status : Nat) (msg : String)
  | codecError (status : Nat) (msg : String)
  | success (nosniff : Bool) (reply : Rep)
deriving DecidableEq

/-- Instrumentation of the pipeline: which stages actually executed. -/
inductive DEvent where
  | beforeHook (i : Nat)
  | readArgs
  | callMethod
  | afterHook (i : Nat)
deriving DecidableEq, Repr

/-- Run a hook list in order starting at index `i`, threading the context;
stop at the first hook returning an error. Returns the final context, the
optional aborting error, and the list of indices of the hooks that ran. -/
def runHooksT {Ctx : Type} (r : HRequest) :
    List (Hook Ctx) → Ctx → Nat → Ctx × Option String × List Nat
  | [], ctx, _ => (ctx, none, [])
  | f :: rest, ctx, i =>
    match f.run r ctx with
    | (ctx1, some e) => (ctx1, some e, [i])
    | (ctx1, none) =>
      match runHooksT r rest ctx1 (i + 1) with
      | (ctx2, res, idxs) => (ctx2, res, i :: idxs)

/-- The codec-selection logic of `ServeHTTP` (`service.go` lines 368–383),
applied to the already stripped content type: when it is empty and exactly
one codec is registered, the ranged-over single codec; otherwise the table
lookup under the lower-cased content type. -/
def selectCodec {Ctx A Rep : Type} (s : Server Ctx A Rep) (ct : String) :
    Option (Codec Ctx A Rep) :=
  if ct = "" ∧ s.codecs.length = 1 then (s.codecs.head?).map Prod.snd
  else aLookup s.codecs (lowerStr ct)

/-- The dispatch pipeline of `ServeHTTP` after codec selection (`service.go`
lines 385–442), instrumented with the executed-stage trace: extract the
method name, resolve it, run before-hooks from the fresh zero context, decode
the arguments into a fresh zero instance, invoke the method on a fresh zero
reply, run after-hooks, write the response. -/
def dispatchWithT {Ctx A Rep : Type} (s : Server Ctx A Rep)
    (c : Codec Ctx A Rep) (r : HRequest) : DResponse Rep × List DEvent :=
  match c.methodName r with
  | .error e => (.codecError 400 e, [])
  | .ok mname =>
    match sGet s.services mname with
    | .error e => (.codecError 400 e, [])
    | .ok mspec =>
      match runHooksT r s.beforeFns s.ctxZero 0 with
      | (_, some e, bidx) => (.codecError 400 e, bidx.map DEvent.beforeHook)
      | (ctx1, none, bidx) =>
        let btrace := bidx.map DEvent.beforeHook
        match c.readRequest r mspec.argZero with
        | (_, some e) => (.codecError 400 e, btrace ++ [DEvent.readArgs])
        | (args, none) =>
          match mspec.call ctx1 args mspec.replyZero with
          | (_, _, some e) =>
            (.codecError 400 e, btrace ++ [DEvent.readArgs, DEvent.callMethod])
          | (ctx2, reply1, none) =>
            match runHooksT r s.afterFns ctx2 0 with
            | (_, some e, aidx) =>
              (.codecError 400 e,
                btrace ++ [DEvent.readArgs, DEvent.callMethod]
                  ++ aidx.map DEvent.afterHook)
            | (_, none, aidx) =>
              (.success true reply1,
                btrace ++ [DEvent.readArgs, DEvent.callMethod]
                  ++ aidx.map DEvent.afterHook)

/-- `Server.ServeHTTP` (`service.go` lines 363–442) with its stage trace:
reject non-POST with 405, strip the content-type parameters, select the
codec (415 when none), then run the pipeline. -/
def serveHTTPT {Ctx A Rep : Type} (s : Server Ctx A Rep) (r : HRequest) :
    DResponse Rep × List DEvent :=
  if r.verb ≠ "POST" then
    (.plainError 405 ("rpc: POST method required, received " ++ r.verb), [])
  else
    let ct := stripParams (r.header "Content-Type")
    match selectCodec s ct with
    | none => (.plainError 415 ("rpc: unrecognized Content-Type: " ++ ct), [])
    | some c => dispatchWithT s c r

/-- The response `ServeHTTP` writes. -/
def serveHTTP {Ctx A Rep : Type} (s : Server Ctx A Rep) (r : HRequest) :
    DResponse Rep :=
  (serveHTTPT s r).1

/-! ## Allocation model for the per-request instances

`ServeHTTP` materialises three instances per request with `reflect.New`
(`service.go` lines 401, 412, 419): the auxiliary context, the argument and
the reply, each a fresh zero value of its type. To state freshness we model
the allocator: a heap is the list of cells allocated so far, `reflect.New`
appends a cell holding the zero value and returns its address. -/

/-- The allocation store: cell `i` holds `cells[i]`. -/
structure Heap (V : Type) where
  cells : List V
deriving DecidableEq, Repr

/-- `reflect.New t`: allocate one fresh cell holding the zero value `v` of
`t`; the address is the previous heap size. -/
def halloc {V : Type} (h : Heap V) (v : V) : Heap V × Nat :=
  (⟨h.cells ++ [v]⟩, h.cells.length)

/-- The three zero values a dispatch allocates: of the server's fixed context
type and of the resolved method's argument and reply shapes. -/
structure AllocShapes (V : Type) where
  ctxZero : V
  argsZero : V
  replyZero : V

/-- The allocation steps of one dispatch, in source order
(`ctx := reflect.New(s.ctxType)`, `args := reflect.New(methodSpec.argsType)`,
`reply := reflect.New(methodSpec.replyType)`): returns the new heap and the
three addresses. -/
def dispatchAlloc {V : Type} (sp : AllocShapes V) (h : Heap V) :
    Heap V × Nat × Nat × Nat :=
  let t1 := halloc h sp.ctxZero
  let t2 := halloc t1.1 sp.argsZero
  let t3 := halloc t2.1 sp.replyZero
  (t3.1, t1.2, t2.2, t3.2)

/-! ## Lock-coverage model of the shared structures

The registry operations of `serviceMap` and the codec-table operations of
`Server` touch shared maps. We record, per operation and directly from the
statement order of the source, the sequence of lock/unlock actions and
shared-map accesses it performs, and ask whether every access happens while
the mutex is held. -/

/-- One action on shared state: take/release `serviceMap.mutex`, access the
registry map `serviceMap.services`, or access the table `Server.codecs`. -/
inductive MemEvent where
  | lock
  | unlock
  | regRead
  | regWrite
  | codecRead
  | codecWrite
deriving DecidableEq, Repr

/-- `serviceMap.add`, lines 109–119: `Lock`; read the map (nil test and
duplicate test); on the duplicate path return (deferred `Unlock`), otherwise
write the new entry and return (deferred `Unlock`). -/
def serviceAddEvents (dup : Bool) : List MemEvent :=
  if dup then [.lock, .regRead, .unlock]
  else [.lock, .regRead, .regWrite, .unlock]

/-- `serviceMap.get`, lines 132–144: `Lock`; read `m.services[parts[0]]`;
return through the deferred `Unlock` (the nested method read is on the
service value, not on the shared map). -/
def serviceGetEvents : List MemEvent :=
  [.lock, .regRead, .unlock]

/-- `serviceMap.Map`, lines 150–162: `Lock`; range over `m.services`;
deferred `Unlock`. -/
def serviceMapEvents : List MemEvent :=
  [.lock, .regRead, .unlock]

/-- `Server.RegisterCodec`, lines 317–319: a bare write to `s.codecs`;
the `Server` owns no mutex. -/
def registerCodecEvents : List MemEvent :=
  [.codecWrite]

/-- The codec-selection reads of `ServeHTTP`, lines 374–380: `len(s.codecs)`,
the range, and the lookup — all bare reads of `s.codecs`. -/
def serveCodecSelectEvents : List MemEvent :=
  [.codecRead]

/-- `true` iff every shared-map access in the trace occurs while the lock
depth is positive. -/
def guardedFrom : Nat → List MemEvent → Bool
  | _, [] => true
  | d, .lock :: rest => guardedFrom (d + 1) rest
  | d, .unlock :: rest => guardedFrom (d - 1) rest
  | d, .regRead :: rest => decide (0 < d) && guardedFrom d rest
  | d, .regWrite :: rest => decide (0 < d) && guardedFrom d rest
  | d, .codecRead :: rest => decide (0 < d) && guardedFrom d rest
  | d, .codecWrite :: rest => decide (0 < d) && guardedFrom d rest

/-- An operation is performed under mutual exclusion iff every one of its
shared accesses is covered by the lock. -/
def guarded (t : List MemEvent) : Bool :=
  guardedFrom 0 t

/-! ## Concrete fixtures used by the claim witnesses -/

/-- The context type of the example server. -/
def exCtxType : GoType := .base "Context"

/-- A middleware signature that passes `validCtxFunc` for `exCtxType`:
`func(*http.Request, *Context) error`. -/
def validHookSig : FuncSig :=
  ⟨true, [.ptr httpRequestType, .ptr exCtxType], [errType]⟩

/-- A validly shaped hook with identity `n` that always succeeds. -/
def mkOkHook (n : Nat) : Hook Unit :=
  ⟨n, validHookSig, fun _ c => (c, none)⟩

/-- A validly shaped hook with identity `n` that always fails with `msg`. -/
def mkErrHook (n : Nat) (msg : String) : Hook Unit :=
  ⟨n, validHookSig, fun _ c => (c, some msg)⟩

/-- A fresh example server: no codecs, no services, no hooks. -/
def exServer : Server Unit Unit Unit :=
  ⟨[], [], exCtxType, (), [], []⟩

/-- A codec whose adapter always extracts the method name `"Svc.M"` and
decodes arguments without error. -/
def exCodec : Codec Unit Unit Unit :=
  ⟨fun _ => .ok "Svc.M", fun _ a => (a, none)⟩

/-- A second codec, behaviourally distinct from `exCodec` (it fails method
extraction with a recognisable message). -/
def exCodec2 : Codec Unit Unit Unit :=
  ⟨fun _ => .error "codec2", fun _ a => (a, none)⟩

/-- A method behaviour that succeeds without touching anything. -/
def exMethod : MethodBeh Unit Unit Unit :=
  ⟨(), (), fun ctx _a rep => (ctx, rep, none)⟩

/-- A POST request with no Content-Type header. -/
def exPostNoCT : HRequest :=
  ⟨"POST", fun _ => "", ""⟩

/-- A behavioural registry holding service `Svc` with method `M`. -/
def exServices : Registry (MethodBeh Unit Unit Unit) :=
  [("Svc", ⟨"Svc", [("M", exMethod)]⟩)]

/-- A server with one codec, the `Svc.M` service, and a before-hook chain
whose second hook fails. -/
def exServerC3 : Server Unit Unit Unit :=
  ⟨[("application/json", exCodec)], exServices, exCtxType, (),
    [mkOkHook 1, mkErrHook 2 "boom"], [mkOkHook 3]⟩

/-- A reflection method that passes the suitability scan for `exCtxType`:
exported, four ins `(receiver, *Context, *Args, *Reply)`, one `error` out. -/
def wGoodMethod : GoMethodSig :=
  ⟨"M", "", [.base "Recv", .ptr exCtxType, .ptr (.base "Args"), .ptr (.base "Reply")],
    [errType]⟩

/-- A reflection method rejected by the scan (its second argument is not a
pointer). -/
def wBadMethod : GoMethodSig :=
  ⟨"N", "", [.base "Recv", .ptr exCtxType, .base "Args", .ptr (.base "Reply")],
    [errType]⟩

/-- A receiver exposing one suitable and one unsuitable method. -/
def wRec : Receiver :=
  ⟨"Recv", [wGoodMethod, wBadMethod]⟩

/-- A small reflection-free registry (numeric method payload) for `get`
witnesses. -/
def wRegNat : Registry Nat :=
  [("A", ⟨"A", [("B", 7)]⟩)]

/-! ## Association-list lemmas -/

theorem aLookup_aInsert_self {α : Type} (l : List (String × α)) (k : String) (v : α) :
    aLookup (aInsert l k v) k = some v := by
  induction l with
  | nil => simp [aInsert, aLookup]
  | cons p rest ih =>
    obtain ⟨k1, v1⟩ := p
    by_cases h : k1 = k
    · simp [aInsert, h, aLookup]
    · simp [aInsert, h, aLookup, ih]

theorem aLookup_aInsert_ne {α : Type} (l : List (String × α)) (k q : String) (v : α)
    (h : q ≠ k) : aLookup (aInsert l k v) q = aLookup l q := by
  have hk : k ≠ q := Ne.symm h
  induction l with
  | nil => simp [aInsert, aLookup, hk]
  | cons p rest ih =>
    obtain ⟨k1, v1⟩ := p
    by_cases h1 : k1 = k
    · subst h1
      simp [aInsert, aLookup, hk]
    · simp only [aInsert, if_neg h1]
      by_cases h2 : k1 = q
      · simp [aLookup, h2]
      · simp [aLookup, h2, ih]

theorem aLookup_isSome_iff {α : Type} (l : List (String × α)) (q : String) :
    (aLookup l q).isSome ↔ q ∈ l.map Prod.fst := by
  induction l with
  | nil => simp [aLookup]
  | cons p rest ih =>
    obtain ⟨k1, v1⟩ := p
    by_cases h : k1 = q
    · simp [aLookup, h]
    · simp [aLookup, h, ih, Ne.symm h]

theorem mem_keys_aInsert {α : Type} (l : List (String × α)) (k q : String) (v : α) :
    q ∈ (aInsert l k v).map Prod.fst ↔ q ∈ l.map Prod.fst ∨ q = k := by
  induction l with
  | nil => simp [aInsert]
  | cons p rest ih =>
    obtain ⟨k1, v1⟩ := p
    by_cases h : k1 = k
    · subst h
      have hins : aInsert ((k1, v1) :: rest) k1 v = (k1, v) :: rest := by
        simp [aInsert]
      rw [hins]
      simp only [List.map_cons, List.mem_cons]
      tauto
    · simp only [aInsert, if_neg h, List.map_cons, List.mem_cons, ih]
      tauto

theorem aLookup_aInsert_isSome {α : Type} (l : List (String × α)) (k q : String) (v : α) :
    (aLookup (aInsert l k v) q).isSome ↔ q = k ∨ (aLookup l q).isSome := by
  rw [aLookup_isSome_iff, mem_keys_aInsert, aLookup_isSome_iff]
  tauto

theorem keys_nodup_aInsert {α : Type} (l : List (String × α)) (k : String) (v : α)
    (h : (l.map Prod.fst).Nodup) : ((aInsert l k v).map Prod.fst).Nodup := by
  induction l with
  | nil => simp [aInsert]
  | cons p rest ih =>
    obtain ⟨k1, v1⟩ := p
    simp only [List.map_cons, List.nodup_cons] at h
    by_cases h1 : k1 = k
    · subst h1
      simpa [aInsert, List.nodup_cons] using h
    · simp only [aInsert, if_neg h1, List.map_cons, List.nodup_cons]
      refine ⟨?_, ih h.2⟩
      rw [mem_keys_aInsert]
      rintro (h2 | h2)
      · exact h.1 h2
      · exact h1 h2

theorem aLookup_mem {α : Type} (l : List (String × α)) (q : String) (v : α)
    (h : aLookup l q = some v) : (q, v) ∈ l := by
  induction l with
  | nil => simp [aLookup] at h
  | cons p rest ih =>
    obtain ⟨k1, v1⟩ := p
    by_cases hk : k1 = q
    · subst hk
      simp [aLookup] at h
      subst h
      exact List.mem_cons_self _ _
    · simp only [aLookup, if_neg hk] at h
      exact List.mem_cons_of_mem _ (ih h)

theorem aInsert_of_lookup_none {α : Type} (l : List (String × α)) (k : String) (v : α)
    (h : aLookup l k = none) : aInsert l k v = l ++ [(k, v)] := by
  induction l with
  | nil => simp [aInsert]
  | cons p rest ih =>
    obtain ⟨k1, v1⟩ := p
    by_cases h1 : k1 = k
    · simp [aLookup, h1] at h
    · simp only [aLookup, if_neg h1] at h
      simp [aInsert, h1, ih h]

/-! ## Lemmas about the method-scanning loop of `serviceMap.add` -/

theorem buildMethodsAux_lookup_isSome (ctxType : GoType) :
    ∀ (ms : List GoMethodSig) (acc : List (String × ServiceMethod)) (n : String),
      (aLookup (buildMethodsAux ctxType acc ms) n).isSome ↔
        (aLookup acc n).isSome ∨ ∃ mm, mm ∈ ms ∧ mm.name = n ∧ suitable ctxType mm = true := by
  intro ms
  induction ms with
  | nil => simp [buildMethodsAux]
  | cons mm rest ih =>
    intro acc n
    by_cases hs : suitable ctxType mm
    · simp only [buildMethodsAux, if_pos hs, ih, aLookup_aInsert_isSome, List.mem_cons]
      constructor
      · rintro ((h | h) | ⟨m1, hm1, hn1, hs1⟩)
        · exact Or.inr ⟨mm, Or.inl rfl, h.symm, hs⟩
        · exact Or.inl h
        · exact Or.inr ⟨m1, Or.inr hm1, hn1, hs1⟩
      · rintro (h | ⟨m1, hm1 | hm1, hn1, hs1⟩)
        · exact Or.inl (Or.inr h)
        · exact Or.inl (Or.inl (hm1 ▸ hn1.symm))
        · exact Or.inr ⟨m1, hm1, hn1, hs1⟩
    · simp only [buildMethodsAux, if_neg hs, ih, List.mem_cons]
      constructor
      · rintro (h | ⟨m1, hm1, hn1, hs1⟩)
        · exact Or.inl h
        · exact Or.inr ⟨m1, Or.inr hm1, hn1, hs1⟩
      · rintro (h | ⟨m1, hm1 | hm1, hn1, hs1⟩)
        · exact Or.inl h
        · exact absurd (hm1 ▸ hs1) (by simpa using hs)
        · exact Or.inr ⟨m1, hm1, hn1, hs1⟩

theorem buildMethodsAux_all_unsuitable (ctxType : GoType) :
    ∀ (ms : List GoMethodSig) (acc : List (String × ServiceMethod)),
      (∀ mm ∈ ms, suitable ctxType mm = false) →
      buildMethodsAux ctxType acc ms = acc := by
  intro ms
  induction ms with
  | nil => intro acc _; rfl
  | cons mm rest ih =>
    intro acc h
    have hmm : suitable ctxType mm = false := h mm (List.mem_cons_self mm rest)
    simp only [buildMethodsAux, hmm, Bool.false_eq_true, if_false]
    exact ih acc (fun m1 hm1 => h m1 (List.mem_cons_of_mem mm hm1))

theorem buildMethods_eq_nil_iff (ctxType : GoType) (ms : List GoMethodSig) :
    buildMethods ctxType ms = [] ↔ ∀ mm ∈ ms, suitable ctxType mm = false := by
  constructor
  · intro h mm hmm
    by_contra hs
    have hs1 : suitable ctxType mm = true := by
      cases h1 : suitable ctxType mm
      · exact absurd h1 hs
      · rfl
    have h2 : (aLookup (buildMethods ctxType ms) mm.name).isSome := by
      rw [buildMethods, buildMethodsAux_lookup_isSome]
      exact Or.inr ⟨mm, hmm, rfl, hs1⟩
    rw [h] at h2
    simp [aLookup] at h2
  · intro h
    exact buildMethodsAux_all_unsuitable ctxType ms [] h

theorem buildMethodsAux_keys_nodup (ctxType : GoType) :
    ∀ (ms : List GoMethodSig) (acc : List (String × ServiceMethod)),
      (acc.map Prod.fst).Nodup →
      ((buildMethodsAux ctxType acc ms).map Prod.fst).Nodup := by
  intro ms
  induction ms with
  | nil => intro acc h; exact h
  | cons mm rest ih =>
    intro acc h
    by_cases hs : suitable ctxType mm
    · simp only [buildMethodsAux, if_pos hs]
      exact ih _ (keys_nodup_aInsert _ _ _ h)
    · simp only [buildMethodsAux, if_neg hs]
      exact ih _ h

/-! ## Registry well-formedness and `serviceMap.Map` lemmas -/

/-- The invariant `serviceMap.add` maintains: registry keys are unique, every
stored service carries its own key as `name`, and every service's method map
has unique keys. -/
def regWF {α : Type} (m : Registry α) : Prop :=
  (m.map Prod.fst).Nodup ∧
  (∀ p ∈ m, p.2.name = p.1) ∧
  (∀ p ∈ m, (p.2.methods.map Prod.fst).Nodup)

theorem serviceAdd_regWF (m : Registry ServiceMethod) (rcvr : Option Receiver)
    (name : String) (ctxType : GoType) (h : regWF m) :
    regWF (serviceAdd m rcvr name ctxType).1 := by
  match rcvr with
  | none => exact h
  | some rec =>
    simp only [serviceAdd]
    by_cases h1 : resolvedName rec name = ""
    · simpa [h1] using h
    by_cases h2 : (buildMethods ctxType rec.methods).isEmpty
    · simpa [h1, h2] using h
    by_cases h3 : (aLookup m (resolvedName rec name)).isSome
    · simpa [h1, h2, h3] using h
    have hnone : aLookup m (resolvedName rec name) = none := by
      cases hx : aLookup m (resolvedName rec name)
      · rfl
      · exact absurd (by simp [hx]) h3
    simp only [h1, h2, h3, if_false, Bool.false_eq_true, ite_false]
    rw [aInsert_of_lookup_none m _ _ hnone]
    obtain ⟨hnd, hname, hmeth⟩ := h
    refine ⟨?_, ?_, ?_⟩
    · simp only [List.map_append, List.map_cons, List.map_nil]
      rw [List.nodup_append]
      refine ⟨hnd, List.nodup_singleton _, ?_⟩
      intro a ha hb
      simp only [List.mem_singleton] at hb
      subst hb
      exact absurd ((aLookup_isSome_iff m _).2 ha) (by simp [hnone])
    · intro p hp
      rcases List.mem_append.1 hp with hp1 | hp1
      · exact hname p hp1
      · simp only [List.mem_singleton] at hp1
        subst hp1
        rfl
    · intro p hp
      rcases List.mem_append.1 hp with hp1 | hp1
      · exact hmeth p hp1
      · simp only [List.mem_singleton] at hp1
        subst hp1
        exact buildMethodsAux_keys_nodup ctxType rec.methods [] List.nodup_nil

/-- A registration history: the successive `(receiver, name, ctxType)`
arguments handed to `serviceMap.add`, starting from the empty registry. -/
def runAdds (ops : List (Option Receiver × String × GoType)) : Registry ServiceMethod :=
  ops.foldl (fun m op => (serviceAdd m op.1 op.2.1 op.2.2).1) []

theorem foldl_serviceAdd_regWF :
    ∀ (ops : List (Option Receiver × String × GoType)) (m : Registry ServiceMethod),
      regWF m →
      regWF (ops.foldl (fun m op => (serviceAdd m op.1 op.2.1 op.2.2).1) m) := by
  intro ops
  induction ops with
  | nil => intro m h; exact h
  | cons op rest ih =>
    intro m h
    exact ih _ (serviceAdd_regWF m op.1 op.2.1 op.2.2 h)

theorem runAdds_regWF (ops : List (Option Receiver × String × GoType)) :
    regWF (runAdds ops) :=
  foldl_serviceAdd_regWF ops [] ⟨List.nodup_nil, by simp, by simp⟩

theorem sMap_keys {α : Type} (m : Registry α) (h : ∀ p ∈ m, p.2.name = p.1) :
    (sMap m).map Prod.fst = m.map Prod.fst := by
  induction m with
  | nil => rfl
  | cons p rest ih =>
    have h1 := h p (List.mem_cons_self p rest)
    have h2 : ∀ q ∈ rest, q.2.name = q.1 := fun q hq => h q (List.mem_cons_of_mem p hq)
    simp only [sMap, List.map_cons] at ih ⊢
    rw [h1, ih h2]

theorem aLookup_sMap {α : Type} (m : Registry α) (h : ∀ p ∈ m, p.2.name = p.1)
    (n : String) :
    aLookup (sMap m) n = (aLookup m n).map (fun svc => svc.methods.map Prod.fst) := by
  induction m with
  | nil => rfl
  | cons p rest ih =>
    have h1 := h p (List.mem_cons_self p rest)
    have h2 : ∀ q ∈ rest, q.2.name = q.1 := fun q hq => h q (List.mem_cons_of_mem p hq)
    obtain ⟨k, svc⟩ := p
    simp only at h1
    simp only [sMap, List.map_cons, aLookup, h1] at ih ⊢
    by_cases hk : k = n
    · simp [hk]
    · simp [hk, ih h2]

/-! ## Hook-run and pipeline lemmas -/

theorem runHooksT_error_spec {Ctx : Type} (r : HRequest) :
    ∀ (fns : List (Hook Ctx)) (ctx : Ctx) (i : Nat) (ctx1 : Ctx) (e : String)
      (idxs : List Nat),
      runHooksT r fns ctx i = (ctx1, some e, idxs) →
      idxs = (List.range idxs.length).map (fun j => j + i) ∧
      0 < idxs.length ∧ idxs.length ≤ fns.length ∧
      ∃ f cmid, fns[idxs.length - 1]? = some f ∧ f.run r cmid = (ctx1, some e) := by
  intro fns
  induction fns with
  | nil =>
    intro ctx i ctx1 e idxs h
    simp [runHooksT] at h
  | cons f rest ih =>
    intro ctx i ctx1 e idxs h
    simp only [runHooksT] at h
    rcases hrun : f.run r ctx with ⟨c1, oe⟩
    rw [hrun] at h
    cases oe with
    | some e0 =>
      simp only [Prod.mk.injEq] at h
      obtain ⟨hc, he, hi⟩ := h
      obtain rfl : e0 = e := Option.some.inj he
      subst hc
      refine ⟨?_, ?_, ?_, f, ctx, ?_, hrun⟩
      · rw [← hi]
        simp [List.range_succ]
      · rw [← hi]
        simp
      · rw [← hi]
        simp
      · rw [← hi]
        simp
    | none =>
      rcases hrec : runHooksT r rest c1 (i + 1) with ⟨c2, res, idxs2⟩
      simp only [hrec, Prod.mk.injEq] at h
      obtain ⟨hc, hres, hi⟩ := h
      subst hc
      subst hres
      obtain ⟨ha, hb, hcnt, f1, cmid, hidx, hcall⟩ := ih _ _ _ _ _ hrec
      have hlen : idxs.length = idxs2.length + 1 := by
        rw [← hi]
        simp
      refine ⟨?_, ?_, ?_, f1, cmid, ?_, hcall⟩
      · rw [← hi]
        simp only [List.length_cons]
        rw [List.range_succ_eq_map, List.map_cons, List.map_map]
        congr 1
        · omega
        · conv_lhs => rw [ha]
          congr 1
          funext j
          simp only [Function.comp]
          omega
      · omega
      · rw [← hi]
        simp only [List.length_cons, List.length_cons]
        omega
      · rw [hlen]
        simp only [Nat.add_sub_cancel]
        have hx : idxs2.length = (idxs2.length - 1) + 1 := by omega
        rw [hx, List.getElem?_cons_succ]
        exact hidx

theorem dispatchWithT_ne_plainError {Ctx A Rep : Type} (s : Server Ctx A Rep)
    (c : Codec Ctx A Rep) (r : HRequest) (st : Nat) (msg : String) :
    (dispatchWithT s c r).1 ≠ DResponse.plainError st msg := by
  intro h
  simp only [dispatchWithT] at h
  repeat' split at h
  all_goals simp_all

theorem selectCodec_none_iff {Ctx A Rep : Type} (s : Server Ctx A Rep) (ct : String) :
    selectCodec s ct = none ↔
      ¬ (ct = "" ∧ s.codecs.length = 1) ∧ aLookup s.codecs (lowerStr ct) = none := by
  unfold selectCodec
  by_cases h : ct = "" ∧ s.codecs.length = 1
  · obtain ⟨a, ha⟩ := List.length_eq_one.1 h.2
    simp [h, ha]
  · simp [h]

/-! ## The claims -/

/-- C1: `RegisterBeforeFunc` of a hook passing signature validation appends
it to the before-list (append-only, order preserved). The claim also states
that `RegisterAfterFunc` appends to the after-list preserving previously
installed after-hooks — the code instead executes
`s.afterFns = append(s.beforeFns, fn)` (`service.go` line 306), so the
second after-registration discards the first after-hook: starting from a
fresh server, registering after-hooks 1 then 2 leaves the after-list holding
only hook 2 (the claim requires [1, 2]), while registering before-hooks 1
then 2 correctly leaves the before-list [1, 2]. This theorem evaluates the
code at that failing input. -/
theorem c1_after_hook_list_loses_previous :
    validCtxFunc (some validHookSig) exCtxType = none ∧
    (registerAfterFunc exServer (some (mkOkHook 1))).2 = none ∧
    (registerAfterFunc (registerAfterFunc exServer (some (mkOkHook 1))).1
        (some (mkOkHook 2))).2 = none ∧
    (registerAfterFunc exServer (some (mkOkHook 1))).1.afterFns.map Hook.hid = [1] ∧
    (registerAfterFunc (registerAfterFunc exServer (some (mkOkHook 1))).1
        (some (mkOkHook 2))).1.afterFns.map Hook.hid = [2] ∧
    (registerBeforeFunc (registerBeforeFunc exServer (some (mkOkHook 1))).1
        (some (mkOkHook 2))).1.beforeFns.map Hook.hid = [1, 2] := by
  refine ⟨rfl, rfl, rfl, rfl, rfl, rfl⟩

/-- C2: for a dispatched POST request, a 415 is written exactly when codec
selection fails, i.e. when it is not the case that the stripped content type
is empty with exactly one registered codec, and the lower-cased content type
is absent from the codec table; when the stripped content type is empty and
exactly one codec is registered, dispatch proceeds with that codec (so in
particular a single registered codec and no Content-Type header means no
415). -/
theorem c2_codec_selection {Ctx A Rep : Type} (s : Server Ctx A Rep)
    (r : HRequest) (hpost : r.verb = "POST") :
    ((∃ msg, serveHTTP s r = DResponse.plainError 415 msg) ↔
      (¬ (stripParams (r.header "Content-Type") = "" ∧ s.codecs.length = 1) ∧
        aLookup s.codecs (lowerStr (stripParams (r.header "Content-Type"))) = none)) ∧
    (∀ k c, stripParams (r.header "Content-Type") = "" → s.codecs = [(k, c)] →
      serveHTTPT s r = dispatchWithT s c r) := by
  constructor
  · cases hsel : selectCodec s (stripParams (r.header "Content-Type")) with
    | none =>
      have hr : serveHTTP s r =
          DResponse.plainError 415
            ("rpc: unrecognized Content-Type: " ++ stripParams (r.header "Content-Type")) := by
        simp [serveHTTP, serveHTTPT, hpost, hsel]
      constructor
      · intro _
        exact (selectCodec_none_iff s _).1 hsel
      · intro _
        exact ⟨_, hr⟩
    | some c =>
      have hr : serveHTTP s r = (dispatchWithT s c r).1 := by
        simp [serveHTTP, serveHTTPT, hpost, hsel]
      constructor
      · rintro ⟨msg, hmsg⟩
        rw [hr] at hmsg
        exact absurd hmsg (dispatchWithT_ne_plainError s c r 415 msg)
      · intro hrhs
        have : selectCodec s (stripParams (r.header "Content-Type")) = none :=
          (selectCodec_none_iff s _).2 hrhs
        rw [hsel] at this
        exact absurd this (by simp)
  · intro k c hct hcodecs
    simp [serveHTTPT, hpost, selectCodec, hct, hcodecs]

/-- Witness for C2: with two codecs registered under non-empty keys and a
POST request with no Content-Type header, dispatch returns 415; with exactly
one codec registered and no header, dispatch proceeds with that codec. -/
theorem c2_codec_selection_witness :
    (∃ msg,
      serveHTTP
        {exServer with
          codecs := [("application/json", exCodec), ("application/xml", exCodec2)]}
        exPostNoCT = DResponse.plainError 415 msg) ∧
    serveHTTPT {exServer with codecs := [("application/json", exCodec)]} exPostNoCT =
      dispatchWithT {exServer with codecs := [("application/json", exCodec)]}
        exCodec exPostNoCT := by
  constructor
  · exact (c2_codec_selection
      {exServer with
        codecs := [("application/json", exCodec), ("application/xml", exCodec2)]}
      exPostNoCT rfl).1.2 ⟨by decide, rfl⟩
  · exact (c2_codec_selection {exServer with codecs := [("application/json", exCodec)]}
      exPostNoCT rfl).2 "application/json" exCodec rfl rfl

/-- C3: under a dispatched request (POST verb, codec selected, method name
extracted, method resolved), if the before-hook run aborts with error `e`,
then the codec adapter writes the 400 error carrying `e` and the
executed-stage trace consists exactly of before-hook events for the indices
`0, 1, …, k` in registration order (`idxs = List.range idxs.length`), where
hook `k` — the first erroring one — returned `e`; no argument decoding, no
method call and no after-hook event occurs. -/
theorem c3_before_hook_abort {Ctx A Rep : Type} (s : Server Ctx A Rep)
    (c : Codec Ctx A Rep) (r : HRequest) (mname : String)
    (mspec : MethodBeh Ctx A Rep) (ctx1 : Ctx) (e : String) (idxs : List Nat)
    (hpost : r.verb = "POST")
    (hsel : selectCodec s (stripParams (r.header "Content-Type")) = some c)
    (hmn : c.methodName r = Except.ok mname)
    (hget : sGet s.services mname = Except.ok mspec)
    (hrun : runHooksT r s.beforeFns s.ctxZero 0 = (ctx1, some e, idxs)) :
    serveHTTPT s r = (DResponse.codecError 400 e, idxs.map DEvent.beforeHook) ∧
    idxs = List.range idxs.length ∧
    0 < idxs.length ∧ idxs.length ≤ s.beforeFns.length ∧
    ∃ f cmid, s.beforeFns[idxs.length - 1]? = some f ∧
      f.run r cmid = (ctx1, some e) := by
  obtain ⟨ha, hb, hc, hd⟩ :=
    runHooksT_error_spec r s.beforeFns s.ctxZero 0 ctx1 e idxs hrun
  refine ⟨?_, ?_, hb, hc, hd⟩
  · simp [serveHTTPT, hpost, hsel, dispatchWithT, hmn, hget, hrun]
  · simpa using ha

/-- Witness for C3: a server whose before-hook chain is an OK hook followed
by a hook failing with "boom"; dispatch of a well-formed request yields the
400 with "boom" and a trace of exactly the two before-hook stages. -/
theorem c3_before_hook_abort_witness :
    serveHTTPT exServerC3 exPostNoCT =
      (DResponse.codecError 400 "boom", [DEvent.beforeHook 0, DEvent.beforeHook 1]) :=
  (c3_before_hook_abort exServerC3 exCodec exPostNoCT "Svc.M" exMethod () "boom"
    [0, 1] rfl rfl rfl rfl rfl).1

/-- C10: when a codec is registered under the empty content-type string,
every POST request whose stripped content type is empty is dispatched with
that codec — never a 415 — whatever the number of registered codecs: with
one codec the single-codec default picks it, otherwise the empty string is
looked up in the codec table like any other key. -/
theorem c10_empty_content_type_codec {Ctx A Rep : Type} (s : Server Ctx A Rep)
    (r : HRequest) (c : Codec Ctx A Rep) (hpost : r.verb = "POST")
    (hct : stripParams (r.header "Content-Type") = "")
    (hreg : aLookup s.codecs "" = some c) :
    serveHTTPT s r = dispatchWithT s c r ∧
    ∀ st msg, serveHTTP s r ≠ DResponse.plainError st msg := by
  have hsel : selectCodec s (stripParams (r.header "Content-Type")) = some c := by
    rw [hct]
    unfold selectCodec
    by_cases h : ("" : String) = "" ∧ s.codecs.length = 1
    · obtain ⟨a, ha⟩ := List.length_eq_one.1 h.2
      obtain ⟨k, v⟩ := a
      rw [ha] at hreg
      by_cases hk : k = ""
      · subst hk
        simp [aLookup] at hreg
        simp [h, ha, hreg]
      · simp [aLookup, hk] at hreg
    · have hlen : s.codecs.length ≠ 1 := fun hl => h ⟨rfl, hl⟩
      have hlow : lowerStr "" = "" := rfl
      simp [hlen, hlow, hreg]
  have h1 : serveHTTPT s r = dispatchWithT s c r := by
    simp [serveHTTPT, hpost, hsel]
  refine ⟨h1, ?_⟩
  intro st msg
  rw [serveHTTP, h1]
  exact dispatchWithT_ne_plainError s c r st msg

/-- Witness for C10: two codecs registered, one of them under the empty
content type; a POST request without a Content-Type header dispatches with
that codec (and the response is the pipeline's, not a 415). -/
theorem c10_empty_content_type_codec_witness :
    serveHTTPT
      {exServer with codecs := [("application/json", exCodec2), ("", exCodec)]}
      exPostNoCT =
    dispatchWithT
      {exServer with codecs := [("application/json", exCodec2), ("", exCodec)]}
      exCodec exPostNoCT :=
  (c10_empty_content_type_codec
    {exServer with codecs := [("application/json", exCodec2), ("", exCodec)]}
    exPostNoCT exCodec rfl rfl rfl).1

/-- C4: for a receiver handed to `serviceMap.add` with a fresh, non-empty
resolved service name, `add` reports an error exactly when no method of the
receiver passes the suitability scan (exported; exactly three parameters
beyond the receiver: a pointer to exactly the context type, a pointer
argument and a pointer reply; exactly one `error`-typed result) — every
non-qualifying method is skipped without an error — and on success the
stored service holds a method named `n` iff the receiver has a suitable
method named `n`. -/
theorem c4_method_qualification (m : Registry ServiceMethod) (rec : Receiver)
    (name : String) (ctxType : GoType)
    (hname : resolvedName rec name ≠ "")
    (hfresh : aLookup m (resolvedName rec name) = none) :
    ((serviceAdd m (some rec) name ctxType).2.isSome ↔
      ∀ mm ∈ rec.methods, suitable ctxType mm = false) ∧
    ((serviceAdd m (some rec) name ctxType).2 = none →
      ∀ n,
        (Option.bind
          (aLookup (serviceAdd m (some rec) name ctxType).1 (resolvedName rec name))
          (fun svc => aLookup svc.methods n)).isSome ↔
        ∃ mm ∈ rec.methods, mm.name = n ∧ suitable ctxType mm = true) := by
  by_cases hemp : (buildMethods ctxType rec.methods).isEmpty
  · have hnil : buildMethods ctxType rec.methods = [] := by
      cases hx : buildMethods ctxType rec.methods
      · rfl
      · rw [hx] at hemp
        simp at hemp
    have hres : serviceAdd m (some rec) name ctxType =
        (m, some ("rpc: \x22" ++ resolvedName rec name ++
          "\x22 has no exported methods of suitable type")) := by
      simp [serviceAdd, hname, hemp]
    rw [hres]
    constructor
    · constructor
      · intro _
        exact (buildMethods_eq_nil_iff ctxType rec.methods).1 hnil
      · intro _
        simp
    · intro hnone
      simp at hnone
  · have hres : serviceAdd m (some rec) name ctxType =
        (aInsert m (resolvedName rec name)
          ⟨resolvedName rec name, buildMethods ctxType rec.methods⟩, none) := by
      simp [serviceAdd, hname, hemp, hfresh]
    rw [hres]
    constructor
    · simp only [Option.isSome_none, Bool.false_eq_true, false_iff]
      intro hall
      have : buildMethods ctxType rec.methods = [] :=
        (buildMethods_eq_nil_iff ctxType rec.methods).2 hall
      rw [this] at hemp
      simp at hemp
    · intro _ n
      rw [aLookup_aInsert_self]
      simp only [Option.some_bind]
      rw [buildMethods, buildMethodsAux_lookup_isSome]
      simp [aLookup]

/-- Witness for C4: registering the receiver `wRec` (one suitable method
`M`, one unsuitable method `N`) under the fresh name `Svc` succeeds; the
stored service holds `M` and not `N`. -/
theorem c4_method_qualification_witness :
    ((serviceAdd [] (some wRec) "Svc" exCtxType).2.isSome ↔
      ∀ mm ∈ wRec.methods, suitable exCtxType mm = false) ∧
    (Option.bind (aLookup (serviceAdd [] (some wRec) "Svc" exCtxType).1 "Svc")
      (fun svc => aLookup svc.methods "M")).isSome = true ∧
    (Option.bind (aLookup (serviceAdd [] (some wRec) "Svc" exCtxType).1 "Svc")
      (fun svc => aLookup svc.methods "N")).isSome = false := by
  have h := c4_method_qualification [] wRec "Svc" exCtxType (by decide) rfl
  have hM := h.2 rfl "M"
  have hN := h.2 rfl "N"
  refine ⟨h.1, ?_, ?_⟩
  · have hres : resolvedName wRec "Svc" = "Svc" := rfl
    rw [hres] at hM
    rw [hM]
    exact ⟨wGoodMethod, by simp [wRec], rfl, by decide⟩
  · have hres : resolvedName wRec "Svc" = "Svc" := rfl
    rw [hres] at hN
    cases hx : (Option.bind (aLookup (serviceAdd [] (some wRec) "Svc" exCtxType).1 "Svc")
        (fun svc => aLookup svc.methods "N")).isSome
    · rfl
    · exact absurd (hN.1 hx) (by decide)

/-- C5: when the resolved service name of a registration is already present
in the registry, `serviceMap.add` returns an error and leaves the registry
value unchanged — no overwrite, no merge — so every `get` answers exactly as
before and the previously stored service is still found under that name. -/
theorem c5_duplicate_service_rejected (m : Registry ServiceMethod)
    (rec : Receiver) (name : String) (ctxType : GoType)
    (svc : GService ServiceMethod)
    (hdup : aLookup m (resolvedName rec name) = some svc) :
    (serviceAdd m (some rec) name ctxType).1 = m ∧
    (serviceAdd m (some rec) name ctxType).2.isSome = true ∧
    (∀ q, sGet (serviceAdd m (some rec) name ctxType).1 q = sGet m q) ∧
    aLookup (serviceAdd m (some rec) name ctxType).1 (resolvedName rec name) =
      some svc := by
  have h1 : (serviceAdd m (some rec) name ctxType).1 = m ∧
      (serviceAdd m (some rec) name ctxType).2.isSome = true := by
    by_cases hn : resolvedName rec name = ""
    · simp [serviceAdd, hn]
    by_cases hemp : (buildMethods ctxType rec.methods).isEmpty
    · simp [serviceAdd, hn, hemp]
    · simp [serviceAdd, hn, hemp, hdup]
  refine ⟨h1.1, h1.2, fun q => by rw [h1.1], by rw [h1.1]; exact hdup⟩

/-- Witness for C5: registering `wRec` as `Svc` twice — the second `add`
leaves the registry exactly as after the first. -/
theorem c5_duplicate_service_rejected_witness :
    (serviceAdd (serviceAdd [] (some wRec) "Svc" exCtxType).1 (some wRec) "Svc"
      exCtxType).1 = (serviceAdd [] (some wRec) "Svc" exCtxType).1 ∧
    (serviceAdd (serviceAdd [] (some wRec) "Svc" exCtxType).1 (some wRec) "Svc"
      exCtxType).2.isSome = true :=
  ⟨(c5_duplicate_service_rejected (serviceAdd [] (some wRec) "Svc" exCtxType).1
      wRec "Svc" exCtxType ⟨"Svc", buildMethods exCtxType wRec.methods⟩ rfl).1,
   (c5_duplicate_service_rejected (serviceAdd [] (some wRec) "Svc" exCtxType).1
      wRec "Svc" exCtxType ⟨"Svc", buildMethods exCtxType wRec.methods⟩ rfl).2.1⟩

/-- C6: `serviceMap.get` succeeds exactly on a name that splits into two
dot-separated parts naming a registered service and a method stored within
it, and then returns the stored descriptor; a name that does not split into
exactly two parts yields an error; and under the invariant that registered
service and method names are non-empty (which `add` maintains), a name with
an empty part also yields an error. -/
theorem c6_get_resolution {α : Type} (m : Registry α) (q : String) :
    (∀ d, sGet m q = Except.ok d ↔
      ∃ a b svc, strSplitDot q = [a, b] ∧ aLookup m a = some svc ∧
        aLookup svc.methods b = some d) ∧
    ((∀ a b, strSplitDot q ≠ [a, b]) → ∃ e, sGet m q = Except.error e) ∧
    ((∀ p ∈ m, p.1 ≠ "" ∧ ∀ mp ∈ p.2.methods, mp.1 ≠ "") →
      ∀ a b, strSplitDot q = [a, b] → a = "" ∨ b = "" →
        ∃ e, sGet m q = Except.error e) := by
  refine ⟨?_, ?_, ?_⟩
  · intro d
    rcases hs : strSplitDot q with _ | ⟨a, _ | ⟨b, _ | ⟨x, tl⟩⟩⟩
    · simp [sGet, hs]
    · simp [sGet, hs]
    · cases hla : aLookup m a with
      | none => simp [sGet, hs, hla]
      | some svc =>
        cases hlb : aLookup svc.methods b with
        | none => simp [sGet, hs, hla, hlb]
        | some sm =>
          constructor
          · intro h
            have hd : sm = d := by
              simp [sGet, hs, hla, hlb] at h
              exact h
            exact ⟨a, b, svc, rfl, hla, hd ▸ hlb⟩
          · rintro ⟨a1, b1, svc1, hsplit1, hla1, hlb1⟩
            obtain ⟨ha1, hb1⟩ : a = a1 ∧ b = b1 := by simpa using hsplit1
            subst ha1
            subst hb1
            rw [hla] at hla1
            obtain rfl : svc = svc1 := by simpa using hla1
            rw [hlb] at hlb1
            obtain rfl : sm = d := by simpa using hlb1
            simp [sGet, hs, hla, hlb]
    · simp [sGet, hs]
  · intro hno
    rcases hs : strSplitDot q with _ | ⟨a, _ | ⟨b, _ | ⟨x, tl⟩⟩⟩
    · exact ⟨"rpc: service/method request ill-formed: \x22" ++ q ++ "\x22",
        by simp [sGet, hs]⟩
    · exact ⟨"rpc: service/method request ill-formed: \x22" ++ q ++ "\x22",
        by simp [sGet, hs]⟩
    · exact absurd hs (hno a b)
    · exact ⟨"rpc: service/method request ill-formed: \x22" ++ q ++ "\x22",
        by simp [sGet, hs]⟩
  · intro hwf a b hsplit hab
    cases hla : aLookup m a with
    | none =>
      exact ⟨"rpc: can't find service \x22" ++ q ++ "\x22",
        by simp [sGet, hsplit, hla]⟩
    | some svc =>
      have hmem := aLookup_mem m a svc hla
      have hane : a ≠ "" := (hwf (a, svc) hmem).1
      rcases hab with hA | hB
      · exact absurd hA hane
      · cases hlb : aLookup svc.methods b with
        | none =>
          exact ⟨"rpc: can't find method \x22" ++ q ++ "\x22",
            by simp [sGet, hsplit, hla, hlb]⟩
        | some sm =>
          have hmem2 := aLookup_mem svc.methods b sm hlb
          have hbne : b ≠ "" := (hwf (a, svc) hmem).2 (b, sm) hmem2
          exact absurd hB hbne

/-- Witness for C6: on the registry `[("A", service with method "B")]`,
`get "A.B"` returns the stored descriptor, while `get "A"` (one part) and
`get "A."` (empty method part) return errors. -/
theorem c6_get_resolution_witness :
    sGet wRegNat "A.B" = Except.ok 7 ∧
    (∃ e, sGet wRegNat "A" = Except.error e) ∧
    (∃ e, sGet wRegNat "A." = Except.error e) := by
  refine ⟨?_, ?_, ?_⟩
  · exact ((c6_get_resolution wRegNat "A.B").1 7).2
      ⟨"A", "B", ⟨"A", [("B", 7)]⟩, by decide, rfl, rfl⟩
  · refine (c6_get_resolution wRegNat "A").2.1 ?_
    intro a b hcon
    rw [show strSplitDot "A" = ["A"] from by decide] at hcon
    simp at hcon
  · exact (c6_get_resolution wRegNat "A.").2.2 (by decide) "A" ""
      (by decide) (Or.inr rfl)

/-- C7: after any sequence of registrations, `serviceMap.Map` lists exactly
the registered service names (no extras, no omissions, each once), and for
each registered service exactly the keys of its stored method map, each
present exactly once. -/
theorem c7_service_map_exact (ops : List (Option Receiver × String × GoType)) :
    (sMap (runAdds ops)).map Prod.fst = (runAdds ops).map Prod.fst ∧
    ((sMap (runAdds ops)).map Prod.fst).Nodup ∧
    (∀ n, (aLookup (sMap (runAdds ops)) n).isSome ↔
      (aLookup (runAdds ops) n).isSome) ∧
    (∀ n svc, aLookup (runAdds ops) n = some svc →
      aLookup (sMap (runAdds ops)) n = some (svc.methods.map Prod.fst) ∧
      (svc.methods.map Prod.fst).Nodup ∧
      ∀ mn, mn ∈ svc.methods.map Prod.fst ↔ (aLookup svc.methods mn).isSome) := by
  obtain ⟨hnd, hnames, hmeth⟩ := runAdds_regWF ops
  have hk := sMap_keys (runAdds ops) hnames
  refine ⟨hk, ?_, ?_, ?_⟩
  · rw [hk]
    exact hnd
  · intro n
    rw [aLookup_sMap (runAdds ops) hnames n]
    cases aLookup (runAdds ops) n <;> simp
  · intro n svc hsvc
    refine ⟨?_, ?_, ?_⟩
    · rw [aLookup_sMap (runAdds ops) hnames n, hsvc]
      rfl
    · exact hmeth (n, svc) (aLookup_mem _ _ _ hsvc)
    · intro mn
      exact (aLookup_isSome_iff svc.methods mn).symm

/-- Witness for C7: one successful registration of `wRec` as `Svc`; the
snapshot maps `Svc` to exactly the stored method keys, without
duplicates. -/
theorem c7_service_map_exact_witness :
    aLookup (sMap (runAdds [(some wRec, "Svc", exCtxType)])) "Svc" =
      some ((buildMethods exCtxType wRec.methods).map Prod.fst) ∧
    ((buildMethods exCtxType wRec.methods).map Prod.fst).Nodup := by
  have h := (c7_service_map_exact [(some wRec, "Svc", exCtxType)]).2.2.2 "Svc"
    ⟨"Svc", buildMethods exCtxType wRec.methods⟩ rfl
  exact ⟨h.1, h.2.1⟩

theorem dispatchAlloc_spec {V : Type} (sp : AllocShapes V) (h : Heap V) :
    dispatchAlloc sp h =
      (⟨h.cells ++ [sp.ctxZero, sp.argsZero, sp.replyZero]⟩,
        h.cells.length, h.cells.length + 1, h.cells.length + 2) := by
  simp [dispatchAlloc, halloc]

/-- C8: the context, argument and reply instances of a dispatch are three
freshly allocated cells — addresses outside the pre-dispatch heap, pairwise
distinct — initialised with the zero values of their shapes, with every
pre-existing cell left untouched; consequently the cells of any two
successive dispatches are disjoint: no instance is shared or leaks from one
request to the next, and the values a hook first observes depend only on the
dispatch's own shapes. -/
theorem c8_fresh_allocation {V : Type} (sp sp2 : AllocShapes V) (h : Heap V) :
    (h.cells.length ≤ (dispatchAlloc sp h).2.1 ∧
     h.cells.length ≤ (dispatchAlloc sp h).2.2.1 ∧
     h.cells.length ≤ (dispatchAlloc sp h).2.2.2) ∧
    ((dispatchAlloc sp h).2.1 ≠ (dispatchAlloc sp h).2.2.1 ∧
     (dispatchAlloc sp h).2.1 ≠ (dispatchAlloc sp h).2.2.2 ∧
     (dispatchAlloc sp h).2.2.1 ≠ (dispatchAlloc sp h).2.2.2) ∧
    ((dispatchAlloc sp h).1.cells[(dispatchAlloc sp h).2.1]? = some sp.ctxZero ∧
     (dispatchAlloc sp h).1.cells[(dispatchAlloc sp h).2.2.1]? = some sp.argsZero ∧
     (dispatchAlloc sp h).1.cells[(dispatchAlloc sp h).2.2.2]? = some sp.replyZero) ∧
    (∀ i, i < h.cells.length → (dispatchAlloc sp h).1.cells[i]? = h.cells[i]?) ∧
    (∀ a ∈ [(dispatchAlloc sp h).2.1, (dispatchAlloc sp h).2.2.1,
        (dispatchAlloc sp h).2.2.2],
      ∀ b ∈ [(dispatchAlloc sp2 (dispatchAlloc sp h).1).2.1,
        (dispatchAlloc sp2 (dispatchAlloc sp h).1).2.2.1,
        (dispatchAlloc sp2 (dispatchAlloc sp h).1).2.2.2], a ≠ b) := by
  rw [dispatchAlloc_spec, dispatchAlloc_spec]
  simp only [List.length_append, List.length_cons, List.length_nil]
  refine ⟨⟨by omega, by omega, by omega⟩, ⟨by omega, by omega, by omega⟩,
    ⟨?_, ?_, ?_⟩, ?_, ?_⟩
  · rw [List.getElem?_append_right (Nat.le_refl _)]
    simp
  · rw [List.getElem?_append_right (by omega)]
    simp only [Nat.add_sub_cancel_left]
    rfl
  · rw [List.getElem?_append_right (by omega)]
    have hx : h.cells.length + 2 - h.cells.length = 2 := by omega
    rw [hx]
    rfl
  · intro i hi
    rw [List.getElem?_append_left hi]
  · intro a ha b hb
    simp only [List.mem_cons, List.not_mem_nil, or_false] at ha hb
    rcases ha with rfl | rfl | rfl <;> rcases hb with rfl | rfl | rfl <;> omega

/-- Witness for C8: from the empty heap, the first dispatch's context cell
holds its zero value, and the second dispatch's context address differs from
the first's. -/
theorem c8_fresh_allocation_witness :
    (dispatchAlloc (⟨1, 2, 3⟩ : AllocShapes Nat) ⟨[]⟩).1.cells[
      (dispatchAlloc (⟨1, 2, 3⟩ : AllocShapes Nat) ⟨[]⟩).2.1]? = some 1 ∧
    (dispatchAlloc (⟨1, 2, 3⟩ : AllocShapes Nat) ⟨[]⟩).2.1 ≠
      (dispatchAlloc ⟨4, 5, 6⟩
        (dispatchAlloc (⟨1, 2, 3⟩ : AllocShapes Nat) ⟨[]⟩).1).2.1 := by
  have hthm := c8_fresh_allocation (⟨1, 2, 3⟩ : AllocShapes Nat) ⟨4, 5, 6⟩ ⟨[]⟩
  exact ⟨hthm.2.2.1.1, hthm.2.2.2.2 _ (by simp) _ (by simp)⟩

/-- C9 counterexample: the claim asserts mutual exclusion around every
access to both shared structures, but `Server.RegisterCodec` writes the
codec table, and codec selection in `ServeHTTP` reads it, with no lock at
all (`Server` owns no mutex). -/
theorem c9_codec_table_unguarded_counterexample :
    guarded registerCodecEvents = false ∧
    guarded serveCodecSelectEvents = false := by
  decide

/-- C9 (amended): every access to the Registry's internal service map in
`add` (both the duplicate and the success path), `get` and `Map` happens
with `serviceMap.mutex` held for the whole operation, whereas the
Dispatcher's codec table is written by `RegisterCodec` and read by
`ServeHTTP` without any synchronisation. -/
theorem c9_lock_coverage :
    guarded (serviceAddEvents true) = true ∧
    guarded (serviceAddEvents false) = true ∧
    guarded serviceGetEvents = true ∧
    guarded serviceMapEvents = true ∧
    guarded registerCodecEvents = false ∧
    guarded serveCodecSelectEvents = false := by
  decide

end Rpc
